import Mathlib

/-!
Verification of the ollama-gui LLM gateway and streaming orchestration spec
against the repository's code.

The frontend TypeScript under `frontend/src` is embedded directly
(`api-client.ts`, `conversations-store.ts` including the models store,
`chat-page.ts`).  The backend Python packages (`app/providers`, `app/core`,
`app/rag`) are not part of the source tree here — only their README,
configuration and API surface are — so the components they implement
(provider registry, retrieval pipeline, streaming session manager) are
modelled from the spec, as marked on each such definition.
-/

namespace OllamaGui

/-! ## Streaming consumption (C1)

Embeds `streamChatResponse` (api-client.ts) together with the handlers that
`handleSendMessage` (chat-page.ts) installs: the `stream:<id>:token` listener
forwards each token to `onToken`, which appends it to `streamedMessage`;
`stream:<id>:done` (and `stream:<id>:error`, which also calls `onComplete`)
commits the accumulated text as an assistant message, clears
`streamedMessage` and ends the streaming state.  The ordered list of socket
events stands for the event sequence delivered on the websocket. -/

structure ChatMessage where
  role : String
  content : String
  deriving DecidableEq, Repr

/-- The streaming-related fields of the chat page component:
`streaming`, `streamedMessage` and `messages`. -/
structure ChatPageState where
  streaming : Bool
  streamedMessage : String
  messages : List ChatMessage
  deriving DecidableEq, Repr

/-- One event of a streaming session as delivered to the listeners that
`streamChatResponse` registers. -/
inductive StreamEvent where
  | token (t : String)
  | done
  | error
  deriving DecidableEq, Repr

/-- `handleSendMessage` before streaming starts: `streaming = true`,
`streamedMessage = ''`. -/
def beginStreaming (s : ChatPageState) : ChatPageState :=
  { s with streaming := true, streamedMessage := "" }

/-- The event dispatch of `streamChatResponse`: a token event runs
`onToken` (`streamedMessage += token`); `done` and `error` events run
`onComplete`, which appends the assistant message built from
`streamedMessage`, resets `streamedMessage` and sets `streaming = false`. -/
def applyStreamEvent (s : ChatPageState) : StreamEvent → ChatPageState
  | .token t => { s with streamedMessage := s.streamedMessage ++ t }
  | .done =>
      { streaming := false, streamedMessage := "",
        messages := s.messages ++ [{ role := "assistant", content := s.streamedMessage }] }
  | .error =>
      { streaming := false, streamedMessage := "",
        messages := s.messages ++ [{ role := "assistant", content := s.streamedMessage }] }

/-- Consuming a whole event sequence in order. -/
def runStream (s : ChatPageState) (events : List StreamEvent) : ChatPageState :=
  events.foldl applyStreamEvent s

/-- Concatenation of a token sequence, in emission order. -/
def concatTokens : List String → String
  | [] => ""
  | t :: ts => t ++ concatTokens ts

/-! ## Session state machine and cancellation (C4) -/

/-- Session lifecycle states of §4.4:
`Pending → Streaming → (Completed | Cancelled | Failed)`. -/
inductive SessionState where
  | pending
  | streaming
  | completed
  | cancelled
  | failed
  deriving DecidableEq, Repr

/-- Terminal states are sinks. -/
def SessionState.isTerminal : SessionState → Bool
  | .completed => true
  | .cancelled => true
  | .failed => true
  | _ => false

/-- Modelled from the spec: the Streaming Session Manager's cancellation
transition (backend `app` package is not in the source tree; the frontend
only emits `chat:cancel` in `onDestroy` of chat-page.ts).  A cancellation
request moves `Pending`/`Streaming` to `Cancelled` exactly once and is a
no-op on a session already in a terminal state. -/
def cancelSession : SessionState → SessionState
  | .pending => .cancelled
  | .streaming => .cancelled
  | s => s

/-! ## Gateway API client error tagging (C8)

Embeds `ApiClient.handleError` and `sendChatMessage` (api-client.ts).  A
failed axios call rejects with an error object that may or may not carry a
structured response payload (`error.response.data`); `handleError` returns
that payload when present and otherwise builds a failure result with code
`unknown_error`.  `sendChatMessage` wraps the whole call in try/catch and
returns `handleError`'s result instead of throwing. -/

structure ApiErrorInfo where
  code : String
  message : String
  deriving DecidableEq, Repr

/-- The tagged result shape every ApiClient method returns:
`status` distinguishes success from failure, `error` carries code/message. -/
structure ApiResponse where
  status : Bool
  error : Option ApiErrorInfo
  deriving DecidableEq, Repr

/-- A thrown axios error: `responseData` is `error.response.data` when the
server answered with a structured payload (`none` models a missing
`error.response` or `error.response.data`); `message` is `error.message`,
with the empty string standing for a falsy/undefined message. -/
structure JsError where
  responseData : Option ApiResponse
  message : String
  deriving DecidableEq, Repr

/-- JavaScript `a || b` on strings: the default wins exactly when `a` is
falsy (empty). -/
def jsOrString (a b : String) : String :=
  if a = "" then b else a

/-- `ApiClient.handleError` (api-client.ts lines 308-322). -/
def handleError (e : JsError) : ApiResponse :=
  match e.responseData with
  | some d => d
  | none =>
      { status := false,
        error := some { code := "unknown_error",
                        message := jsOrString e.message "An unknown error occurred" } }

/-- `ApiClient.sendChatMessage` (api-client.ts lines 129-140) as a function
of the underlying call's outcome: a resolved call returns `response.data`
unchanged, a rejected call is caught and routed through `handleError`. -/
def sendChatMessage (outcome : Except JsError ApiResponse) : ApiResponse :=
  match outcome with
  | .ok r => r
  | .error e => handleError e

/-! ## Conversations store (C9)

Embeds `deleteConversation` of conversations-store.ts.  The store state
keeps the conversation list and the current conversation; the API call's
outcome is a boolean (`response.status`; a thrown error takes the same
`return false` path as a failed status, leaving the state untouched). -/

structure Conversation where
  id : String
  title : String
  deriving DecidableEq, Repr

structure ConversationsState where
  conversations : List Conversation
  currentConversation : Option Conversation
  deriving DecidableEq, Repr

/-- `deleteConversation` (conversations-store.ts lines 201-223): on API
success, filter the deleted id out of the list, null the current
conversation when it carries that id, and return `true`; on API failure or
a thrown error, return `false` with the state unchanged. -/
def deleteConversation (apiSuccess : Bool) (conversationId : String)
    (st : ConversationsState) : Bool × ConversationsState :=
  if apiSuccess then
    (true,
      { conversations := st.conversations.filter (fun c => c.id ≠ conversationId),
        currentConversation :=
          match st.currentConversation with
          | some c => if c.id = conversationId then none else some c
          | none => none })
  else
    (false, st)

/-! ## Models store (C10, C6)

Embeds the models store half of conversations-store.ts (`loadModels`,
`selectModel`).  `persistedModelId` stands for the
`localStorage.getItem('selected_model_id')` slot; the `browser` flag is
taken as true (the store only persists in the browser). -/

structure UIModel where
  id : String
  provider : String
  display_name : String
  available : Bool
  deriving DecidableEq, Repr

structure ModelsState where
  models : List UIModel
  selectedModel : Option UIModel
  persistedModelId : Option String
  deriving DecidableEq, Repr

/-- `selectModel` (conversations-store.ts models store, lines 402-416):
look the id up in the loaded models (`find?` matches Array.find, taking
the first match), fall back to `null`, and persist the selected model's id
only when a model was found. -/
def selectModel (st : ModelsState) (modelId : String) : ModelsState :=
  let sel := st.models.find? (fun m => m.id = modelId)
  { models := st.models,
    selectedModel := sel,
    persistedModelId :=
      match sel with
      | some m => some m.id
      | none => st.persistedModelId }

/-! ## Retrieval pipeline: document chunking (C2) -/

/-- Modelled from the spec: the character-level chunking of the Retrieval
Pipeline's `ingest` (`backend/app/rag/chunking.py` is not in the source
tree; only the configuration keys `rag.chunk_size = 1000`,
`rag.chunk_overlap = 100` are).  Chunks of at most `S` characters are cut
with `S - O` character steps so that consecutive chunks share `O`
characters, per the spec's overlap arithmetic.  The fuel argument (started
at the document length) only bounds the recursion; the degenerate guard
`S ≤ O` never fires under the spec's `O < S`. -/
def ingestGo (S O : Nat) : Nat → List Char → List (List Char)
  | 0, D => [D]
  | fuel + 1, D =>
      if D.length ≤ S ∨ S ≤ O then [D]
      else D.take S :: ingestGo S O fuel (D.drop (S - O))

/-- `ingest` restricted to its chunk texts: split a document into
overlapping chunks (an empty document produces no chunks). -/
def ingestChunks (S O : Nat) (D : List Char) : List (List Char) :=
  if D.isEmpty then [] else ingestGo S O D.length D

/-- Concatenating a chunk sequence with the first `O` (overlapping)
characters removed from every chunk after the first. -/
def joinTailChunks (O : Nat) : List (List Char) → List Char
  | [] => []
  | c :: cs => c.drop O ++ joinTailChunks O cs

/-- Reconstruction of a document from its chunks: the first chunk whole,
every later chunk with its `O`-character overlap removed. -/
def joinChunks (O : Nat) : List (List Char) → List Char
  | [] => []
  | c :: cs => c ++ joinTailChunks O cs

/-! ## Retrieval pipeline: retrieval (C3) -/

/-- A stored chunk as seen by retrieval. -/
structure RetrievalChunk where
  text : String
  docId : String
  deriving DecidableEq, Repr

/-- Modelled from the spec: `retrieve(query, top_k, relevance_threshold)`
of the Retrieval Pipeline (`backend/app/rag/engine.py` is not in the
source tree; only the configuration keys `rag.top_k = 3`,
`rag.relevance_threshold = 0.0` are).  The cosine similarity of each
stored chunk to the embedded query is abstracted as a score function into
ℚ; retrieval keeps the chunks scoring at least the threshold, orders them
by descending score and returns at most `top_k` of them. -/
def retrieve (score : RetrievalChunk → ℚ) (stored : List RetrievalChunk)
    (top_k : Nat) (threshold : ℚ) : List RetrievalChunk :=
  ((stored.filter (fun c => decide (threshold ≤ score c))).insertionSort
    (fun a b => score b ≤ score a)).take top_k

/-! ## Provider registry (C5) -/

/-- A catalog entry of the Provider Registry: a model id together with the
availability its adapter's last health probe produced. -/
structure RegistryModel where
  id : String
  provider : String
  available : Bool
  deriving DecidableEq, Repr

inductive SelectError where
  | modelNotFound
  | modelUnavailable
  deriving DecidableEq, Repr

/-- Modelled from the spec: `selectAdapter(modelId)` of the Provider
Registry (`backend/app/core/provider_registry.py` is not in the source
tree).  Exact match on the model id among the catalog's models; no match
yields `ModelNotFound`; a match whose adapter is marked unhealthy yields
`ModelUnavailable`; no other model is ever substituted. -/
def selectAdapter (catalog : List RegistryModel) (modelId : String) :
    Except SelectError RegistryModel :=
  match catalog.find? (fun m => m.id = modelId) with
  | none => .error .modelNotFound
  | some m => if m.available then .ok m else .error .modelUnavailable

/-! ## Streaming session manager: session table (C7) -/

/-- One tracked session: its state and the output accumulated so far. -/
structure SessionRecord where
  state : SessionState
  accumulated : String
  deriving DecidableEq, Repr

/-- A session still holds its adapter invocation. -/
def SessionRecord.isActive (s : SessionRecord) : Bool :=
  match s.state with
  | .pending => true
  | .streaming => true
  | _ => false

inductive StartError where
  | sessionConflict
  deriving DecidableEq, Repr

/-- Modelled from the spec: the Streaming Session Manager's per-conversation
session table and its admission check (the backend `app` package is not in
the source tree; the frontend only disables its input while `streaming`).
Starting a generation while the conversation's session is `Pending` or
`Streaming` is rejected with `SessionConflict` and the table is left
untouched; otherwise the fresh session is installed for the conversation. -/
def startGeneration (table : List (String × SessionRecord)) (conversationId : String)
    (fresh : SessionRecord) : Except StartError Unit × List (String × SessionRecord) :=
  match table.lookup conversationId with
  | some s =>
      if s.isActive then (.error .sessionConflict, table)
      else ((.ok ()), (conversationId, fresh) ::
        table.filter (fun p => p.1 ≠ conversationId))
  | none => ((.ok ()), (conversationId, fresh) :: table)

/-! ## Models store: the loadModels presentation order (C6)

Embeds the comparator that `loadModels` (conversations-store.ts models
store, lines 304-315) passes to `models.sort`, and models
`Array.prototype.sort` as a stable insertion sort driven by that
comparator: each element is placed before the first element of the
already-sorted rest against which it compares `≤ 0`. -/

/-- `String.prototype.localeCompare`, modelled as code-point lexicographic
comparison. -/
def localeCompareChars : List Char → List Char → Int
  | [], [] => 0
  | [], _ :: _ => -1
  | _ :: _, [] => 1
  | a :: as, b :: bs =>
      if a.toNat < b.toNat then -1
      else if b.toNat < a.toNat then 1
      else localeCompareChars as bs

/-- `localeCompare` on whole strings. -/
def localeCompare (a b : String) : Int :=
  localeCompareChars a.data b.data

/-- The sort comparator of `loadModels`: available models first, then the
`ollama` provider first, then by display name.  Note the middle branch
returns `1` whenever `a.provider ≠ b.provider` and `a` is not `ollama`,
regardless of `b`. -/
def compareModels (a b : UIModel) : Int :=
  if a.available ≠ b.available then (if a.available then -1 else 1)
  else if a.provider ≠ b.provider then (if a.provider = "ollama" then -1 else 1)
  else localeCompare a.display_name b.display_name

/-- `models.sort(comparator)` as a stable insertion sort. -/
def sortModels (l : List UIModel) : List UIModel :=
  List.insertionSort (fun a b => compareModels a b ≤ 0) l

/-- The two comparator keys that are consistent: availability, then
whether the provider is `ollama`.  Lower rank is presented first. -/
def modelRank (m : UIModel) : Nat :=
  (if m.available then 0 else 2) + (if m.provider = "ollama" then 0 else 1)

/-- The order `sortModels` actually establishes between a pair: ranks are
non-decreasing, and inside a tie of rank and provider the display names
are in lexicographic order.  Between two distinct non-`ollama` providers
of equal rank it constrains nothing — the comparator is inconsistent
there. -/
def presentedBefore (a b : UIModel) : Prop :=
  modelRank a ≤ modelRank b ∧
  (modelRank a = modelRank b → a.provider = b.provider →
    localeCompare a.display_name b.display_name ≤ 0)

/-- A healthy hosted model on the `openai` provider. -/
def openaiModel : UIModel :=
  { id := "gpt-4", provider := "openai", display_name := "GPT-4", available := true }

/-- A healthy hosted model on the `anthropic` provider. -/
def anthropicModel : UIModel :=
  { id := "claude-3", provider := "anthropic", display_name := "Claude 3", available := true }

/-! # Theorems -/

section ChunkingLemmas

variable {S O : Nat}

/-- Helper: with enough fuel and a genuine overlap (`O < S`), the head
chunk of `ingestGo` is the sub-document's prefix of length `S`. -/
theorem ingestGo_head (hO : O < S) (fuel : Nat) (D : List Char)
    (hfuel : D.length ≤ fuel) :
    ∃ cs, ingestGo S O fuel D = D.take S :: cs := by
  cases fuel with
  | zero =>
      have hD : D = [] := List.eq_nil_of_length_eq_zero (by omega)
      exact ⟨[], by simp [ingestGo, hD]⟩
  | succ fuel =>
      by_cases h : D.length ≤ S ∨ S ≤ O
      · have hlen : D.length ≤ S := by omega
        exact ⟨[], by simp [ingestGo, h, List.take_of_length_le hlen]⟩
      · exact ⟨ingestGo S O fuel (D.drop (S - O)), by simp [ingestGo, h]⟩

/-- Helper: every chunk `ingestGo` produces has at most `S` characters. -/
theorem ingestGo_length_le (hO : O < S) (fuel : Nat) (D : List Char)
    (hfuel : D.length ≤ fuel) :
    ∀ c ∈ ingestGo S O fuel D, c.length ≤ S := by
  induction fuel generalizing D with
  | zero =>
      intro c hc
      simp [ingestGo] at hc
      subst hc
      omega
  | succ fuel ih =>
      intro c hc
      by_cases h : D.length ≤ S ∨ S ≤ O
      · simp [ingestGo, h] at hc
        subst hc
        omega
      · simp only [ingestGo, if_neg h, List.mem_cons] at hc
        rcases hc with hc | hc
        · subst hc
          simp [List.length_take]
        · exact ih (D.drop (S - O)) (by simp [List.length_drop]; omega) c hc

/-- Helper: dropping the `O`-character overlap from every chunk after the
first and concatenating recovers the sub-document past its first `O`
characters. -/
theorem ingestGo_joinTail (hO : O < S) (fuel : Nat) (D : List Char)
    (hfuel : D.length ≤ fuel) :
    joinTailChunks O (ingestGo S O fuel D) = D.drop O := by
  induction fuel generalizing D with
  | zero => simp [ingestGo, joinTailChunks]
  | succ fuel ih =>
      by_cases h : D.length ≤ S ∨ S ≤ O
      · simp [ingestGo, h, joinTailChunks]
      · have hrec : joinTailChunks O (ingestGo S O fuel (D.drop (S - O))) =
            (D.drop (S - O)).drop O := by
          exact ih (D.drop (S - O)) (by simp [List.length_drop]; omega)
        simp only [ingestGo, if_neg h, joinTailChunks, hrec]
        rw [List.drop_take, List.drop_drop]
        have h1 : S - O + O = S := by omega
        rw [h1]
        have h3 : D.drop S = (D.drop O).drop (S - O) := by
          rw [List.drop_drop]
          congr 1
          omega
        rw [h3, List.take_append_drop]

/-- Helper: the full reconstruction — first chunk whole, overlap removed
from the rest — recovers the sub-document. -/
theorem ingestGo_join (hO : O < S) (fuel : Nat) (D : List Char)
    (hfuel : D.length ≤ fuel) :
    joinChunks O (ingestGo S O fuel D) = D := by
  cases fuel with
  | zero =>
      have hD : D = [] := List.eq_nil_of_length_eq_zero (by omega)
      simp [ingestGo, joinChunks, joinTailChunks, hD]
  | succ fuel =>
      by_cases h : D.length ≤ S ∨ S ≤ O
      · simp [ingestGo, h, joinChunks, joinTailChunks]
      · have hrec : joinTailChunks O (ingestGo S O fuel (D.drop (S - O))) =
            (D.drop (S - O)).drop O := by
          exact ingestGo_joinTail hO fuel (D.drop (S - O)) (by simp [List.length_drop]; omega)
        simp only [ingestGo, if_neg h, joinChunks, hrec]
        rw [List.drop_drop]
        have h1 : S - O + O = S := by omega
        rw [h1, List.take_append_drop]

/-- Helper: the one-step unfolding of `ingestGo` at positive fuel. -/
theorem ingestGo_succ (fuel : Nat) (D : List Char) :
    ingestGo S O (fuel + 1) D =
      if D.length ≤ S ∨ S ≤ O then [D]
      else D.take S :: ingestGo S O fuel (D.drop (S - O)) := rfl

/-- Helper: consecutive chunks overlap in exactly `O` characters — the
`O`-character suffix of each chunk is the `O`-character prefix of the
next. -/
theorem ingestGo_overlap (hO : O < S) (fuel : Nat) (D : List Char)
    (hfuel : D.length ≤ fuel) :
    List.Chain'
      (fun a b => a.drop (S - O) = b.take O ∧ (a.drop (S - O)).length = O)
      (ingestGo S O fuel D) := by
  induction fuel generalizing D with
  | zero => simp [ingestGo]
  | succ fuel ih =>
      by_cases h : D.length ≤ S ∨ S ≤ O
      · simp [ingestGo, h]
      · have hfuel2 : (D.drop (S - O)).length ≤ fuel := by
          simp [List.length_drop]; omega
        obtain ⟨cs, hcs⟩ := ingestGo_head hO fuel (D.drop (S - O)) hfuel2
        simp only [ingestGo, if_neg h, hcs]
        rw [List.chain'_cons]
        refine ⟨⟨?_, ?_⟩, by rw [← hcs]; exact ih (D.drop (S - O)) hfuel2⟩
        · rw [List.drop_take, List.take_take]
          have h1 : S - (S - O) = O := by omega
          have h2 : min O S = O := by omega
          rw [h1, h2]
        · rw [List.drop_take]
          have h1 : S - (S - O) = O := by omega
          rw [h1]
          simp [List.length_take, List.length_drop]
          omega

end ChunkingLemmas

/-- C2 (spec-modelled): for a document ingested with `chunk_size = S` and
`chunk_overlap = O` (with `O < S`, as in the configured 1000/100): every
chunk has at most `S` characters; concatenating the chunks with the
overlaps removed reconstructs the document exactly; every pair of
consecutive chunks shares exactly `O` characters (the `O`-suffix of one is
the `O`-prefix of the next); and with `S = 1000`, `O = 100` a
2,500-character document is cut into exactly the chunks starting at
offsets 0, 900 and 1800. -/
theorem ingest_chunking (S O : Nat) (hO : O < S) (D : List Char) :
    (∀ c ∈ ingestChunks S O D, c.length ≤ S) ∧
    joinChunks O (ingestChunks S O D) = D ∧
    List.Chain'
      (fun a b => a.drop (S - O) = b.take O ∧ (a.drop (S - O)).length = O)
      (ingestChunks S O D) ∧
    (∀ D2 : List Char, D2.length = 2500 →
      ingestChunks 1000 100 D2 =
        [D2.take 1000, (D2.drop 900).take 1000, D2.drop 1800]) := by
  refine ⟨?_, ?_, ?_, ?_⟩
  · intro c hc
    by_cases hD : D.isEmpty
    · simp [ingestChunks, hD] at hc
    · simp only [ingestChunks, if_neg hD] at hc
      exact ingestGo_length_le hO D.length D le_rfl c hc
  · by_cases hD : D.isEmpty
    · simp only [ingestChunks, if_pos hD, joinChunks]
      exact (List.isEmpty_iff.mp hD).symm
    · simp only [ingestChunks, if_neg hD]
      exact ingestGo_join hO D.length D le_rfl
  · by_cases hD : D.isEmpty
    · simp [ingestChunks, hD]
    · simp only [ingestChunks, if_neg hD]
      exact ingestGo_overlap hO D.length D le_rfl
  · intro D2 hlen
    have hne : ¬ (D2.isEmpty = true) := by
      cases D2 with
      | nil => simp at hlen
      | cons a l => simp
    have hd1 : (D2.drop 900).length = 1600 := by simp [hlen]
    have hd2 : ((D2.drop 900).drop 900).length = 700 := by simp [hlen]
    simp only [ingestChunks]
    rw [if_neg hne, hlen]
    rw [show (2500 : Nat) = 2499 + 1 from rfl, ingestGo_succ]
    rw [if_neg (by rw [hlen]; omega)]
    rw [show (1000 - 100 : Nat) = 900 from rfl]
    rw [show (2499 : Nat) = 2498 + 1 from rfl, ingestGo_succ]
    rw [if_neg (by rw [hd1]; omega)]
    rw [show (1000 - 100 : Nat) = 900 from rfl]
    rw [show (2498 : Nat) = 2497 + 1 from rfl, ingestGo_succ]
    rw [if_pos (by rw [hd2]; omega)]
    rw [List.drop_drop]

/-- Witness for C2 with `S = 3`, `O = 1` on the five-character document
`"abcde"`. -/
theorem ingest_chunking_witness :
    (1 < 3) ∧
    joinChunks 1 (ingestChunks 3 1 "abcde".data) = "abcde".data ∧
    ingestChunks 3 1 "abcde".data = [['a', 'b', 'c'], ['c', 'd', 'e']] :=
  ⟨by decide, (ingest_chunking 3 1 (by decide) "abcde".data).2.1, by decide⟩

/-- C1: consuming any finite token sequence followed by the end-of-stream
event yields a completed (non-streaming) state whose committed assistant
message is exactly the in-order concatenation of the tokens — no token
reordered, duplicated or lost; in particular the tokens
`["The", " sky", " is", " blue"]` concatenate to `"The sky is blue"`. -/
theorem streaming_accumulates_tokens_in_order :
    (∀ (s : ChatPageState) (tokens : List String),
      runStream (beginStreaming s) (tokens.map StreamEvent.token ++ [StreamEvent.done]) =
        { streaming := false, streamedMessage := "",
          messages := s.messages ++ [{ role := "assistant", content := concatTokens tokens }] }) ∧
    concatTokens ["The", " sky", " is", " blue"] = "The sky is blue" := by
  have key : ∀ (tokens : List String) (s : ChatPageState),
      runStream s (tokens.map StreamEvent.token) =
        { s with streamedMessage := s.streamedMessage ++ concatTokens tokens } := by
    intro tokens
    induction tokens with
    | nil => intro s; simp [runStream, concatTokens]
    | cons t ts ih =>
        intro s
        simp only [List.map_cons, runStream, List.foldl_cons, applyStreamEvent]
        rw [show List.foldl applyStreamEvent = runStream from rfl, ih]
        simp [concatTokens, String.append_assoc]
  constructor
  · intro s tokens
    rw [runStream, List.foldl_append,
      show List.foldl applyStreamEvent = runStream from rfl, key]
    simp [beginStreaming, applyStreamEvent, runStream]
  · rfl

/-- C4: cancelling a session in any state other than `Completed` lands in
`Cancelled` or `Failed` and never in `Completed`; cancellation is
idempotent, and on an already-terminal session it is a no-op (not an
error), so cancelling twice is always safe. -/
theorem cancel_safe (s : SessionState) (h : s ≠ SessionState.completed) :
    (cancelSession s = SessionState.cancelled ∨ cancelSession s = SessionState.failed) ∧
    cancelSession s ≠ SessionState.completed ∧
    cancelSession (cancelSession s) = cancelSession s ∧
    (∀ t : SessionState, t.isTerminal = true → cancelSession t = t) := by
  refine ⟨?_, ?_, ?_, ?_⟩
  · cases s <;> simp_all [cancelSession]
  · cases s <;> simp_all [cancelSession]
  · cases s <;> rfl
  · intro t ht; cases t <;> simp_all [SessionState.isTerminal, cancelSession]

/-- Witness for C4 at the concrete state `Streaming`. -/
theorem cancel_safe_witness :
    (SessionState.streaming ≠ SessionState.completed) ∧
    (cancelSession SessionState.streaming = SessionState.cancelled ∨
      cancelSession SessionState.streaming = SessionState.failed) ∧
    cancelSession SessionState.streaming ≠ SessionState.completed :=
  ⟨by decide,
    (cancel_safe SessionState.streaming (by decide)).1,
    (cancel_safe SessionState.streaming (by decide)).2.1⟩

/-- C8: the API client's chat call always returns a tagged result rather
than throwing: a resolved call passes the tagged payload through, and a
rejected call without a structured error payload yields a result tagged as
failure (`status = false`) whose error code is `"unknown_error"`. -/
theorem gateway_error_tagged (e : JsError) (he : e.responseData = none)
    (r : ApiResponse) :
    sendChatMessage (Except.ok r) = r ∧
    (sendChatMessage (Except.error e)).status = false ∧
    (sendChatMessage (Except.error e)).error =
      some { code := "unknown_error",
             message := jsOrString e.message "An unknown error occurred" } := by
  refine ⟨rfl, ?_, ?_⟩ <;> simp [sendChatMessage, handleError, he]

/-- Witness for C8: a network fault with no structured payload and message
`"Network Error"` comes back as a failure tagged `unknown_error`. -/
theorem gateway_error_tagged_witness :
    ({ responseData := none, message := "Network Error" : JsError }).responseData = none ∧
    (sendChatMessage (Except.error { responseData := none, message := "Network Error" })).status
      = false :=
  ⟨rfl,
    (gateway_error_tagged { responseData := none, message := "Network Error" } rfl
      { status := true, error := none }).2.1⟩

/-- C9: a successful `deleteConversation` returns `true`, removes every
conversation carrying the deleted id, keeps all the others in their
original relative order (the result is a sublist of the original list),
and nulls `currentConversation` exactly when it carried the deleted id;
a failed or throwing API call returns `false` and leaves the whole store
state unchanged. -/
theorem delete_conversation_frame (st : ConversationsState) (conversationId : String) :
    (deleteConversation true conversationId st).1 = true ∧
    (∀ c ∈ (deleteConversation true conversationId st).2.conversations,
      c.id ≠ conversationId) ∧
    List.Sublist (deleteConversation true conversationId st).2.conversations
      st.conversations ∧
    (∀ c ∈ st.conversations, c.id ≠ conversationId →
      c ∈ (deleteConversation true conversationId st).2.conversations) ∧
    (∀ c, st.currentConversation = some c →
      (deleteConversation true conversationId st).2.currentConversation =
        if c.id = conversationId then none else some c) ∧
    (st.currentConversation = none →
      (deleteConversation true conversationId st).2.currentConversation = none) ∧
    deleteConversation false conversationId st = (false, st) := by
  refine ⟨rfl, ?_, ?_, ?_, ?_, ?_, rfl⟩
  · intro c hc
    simp only [deleteConversation, if_pos] at hc
    simpa using (List.mem_filter.mp hc).2
  · simp only [deleteConversation, if_pos]
    exact List.filter_sublist st.conversations
  · intro c hc hne
    simp [deleteConversation, List.mem_filter, hc, hne]
  · intro c hc
    simp [deleteConversation, hc]
  · intro hc
    simp [deleteConversation, hc]

/-- Witness for C9 on a two-conversation store whose current conversation
is the deleted one. -/
theorem delete_conversation_frame_witness :
    ({ id := "b", title := "t2" } : Conversation) ∈
      (deleteConversation true "a"
        { conversations := [{ id := "a", title := "t1" }, { id := "b", title := "t2" }],
          currentConversation := some { id := "a", title := "t1" } }).2.conversations ∧
    (deleteConversation true "a"
        { conversations := [{ id := "a", title := "t1" }, { id := "b", title := "t2" }],
          currentConversation := some { id := "a", title := "t1" } }).2.currentConversation
      = none := by
  have h := delete_conversation_frame
    { conversations := [{ id := "a", title := "t1" }, { id := "b", title := "t2" }],
      currentConversation := some { id := "a", title := "t1" } } "a"
  refine ⟨h.2.2.2.1 { id := "b", title := "t2" } (by decide) (by decide), ?_⟩
  have h2 := h.2.2.2.2.1 { id := "a", title := "t1" } rfl
  simpa using h2

/-- C10: `selectModel` leaves the models list unchanged; when some loaded
model carries the requested id, the selected model becomes such a model
and the id is persisted as `selected_model_id`; when no loaded model
carries the id, the selected model becomes `null` and the persisted id is
not written. -/
theorem select_model_spec (st : ModelsState) (modelId : String) :
    (selectModel st modelId).models = st.models ∧
    ((∃ m ∈ st.models, m.id = modelId) →
      ∃ m, m ∈ st.models ∧ m.id = modelId ∧
        (selectModel st modelId).selectedModel = some m ∧
        (selectModel st modelId).persistedModelId = some modelId) ∧
    ((∀ m ∈ st.models, m.id ≠ modelId) →
      (selectModel st modelId).selectedModel = none ∧
      (selectModel st modelId).persistedModelId = st.persistedModelId) := by
  refine ⟨rfl, ?_, ?_⟩
  · intro hex
    have hsome : (st.models.find? (fun m => m.id = modelId)).isSome := by
      rw [List.find?_isSome]
      obtain ⟨m, hm, hid⟩ := hex
      exact ⟨m, hm, by simpa using hid⟩
    obtain ⟨m, hfind⟩ := Option.isSome_iff_exists.mp hsome
    have hmem : m ∈ st.models := List.mem_of_find?_eq_some hfind
    have hid : m.id = modelId := by simpa using List.find?_some hfind
    exact ⟨m, hmem, hid, by simp [selectModel, hfind], by simp [selectModel, hfind, hid]⟩
  · intro hnone
    have hfind : st.models.find? (fun m => m.id = modelId) = none := by
      rw [List.find?_eq_none]
      intro m hm
      simpa using hnone m hm
    exact ⟨by simp [selectModel, hfind], by simp [selectModel, hfind]⟩

/-- Witness for C10 on a one-model store: selecting the present id picks
that model and persists its id; selecting an absent id clears the
selection and leaves the persisted id alone. -/
theorem select_model_spec_witness :
    (∃ m, m ∈ [({ id := "m1", provider := "ollama", display_name := "M1",
                  available := true } : UIModel)] ∧ m.id = "m1" ∧
      (selectModel
        { models := [{ id := "m1", provider := "ollama", display_name := "M1",
                       available := true }],
          selectedModel := none, persistedModelId := none } "m1").selectedModel = some m ∧
      (selectModel
        { models := [{ id := "m1", provider := "ollama", display_name := "M1",
                       available := true }],
          selectedModel := none, persistedModelId := none } "m1").persistedModelId
        = some "m1") ∧
    (selectModel
      { models := [{ id := "m1", provider := "ollama", display_name := "M1",
                     available := true }],
        selectedModel := none, persistedModelId := none } "ghost").selectedModel = none := by
  constructor
  · exact (select_model_spec
      { models := [{ id := "m1", provider := "ollama", display_name := "M1",
                     available := true }],
        selectedModel := none, persistedModelId := none } "m1").2.1
      ⟨{ id := "m1", provider := "ollama", display_name := "M1", available := true },
        by decide, rfl⟩
  · exact ((select_model_spec
      { models := [{ id := "m1", provider := "ollama", display_name := "M1",
                     available := true }],
        selectedModel := none, persistedModelId := none } "ghost").2.2
      (by decide)).1

/-- C3 (spec-modelled): every retrieval result has at most `top_k`
elements, is ordered by non-increasing similarity, contains no element
scoring below `relevance_threshold`, and is the empty sequence — not an
error — when no stored chunk clears the threshold. -/
theorem retrieve_spec (score : RetrievalChunk → ℚ) (stored : List RetrievalChunk)
    (top_k : Nat) (threshold : ℚ) :
    (retrieve score stored top_k threshold).length ≤ top_k ∧
    (retrieve score stored top_k threshold).Pairwise (fun a b => score b ≤ score a) ∧
    (∀ c ∈ retrieve score stored top_k threshold, threshold ≤ score c) ∧
    ((∀ c ∈ stored, score c < threshold) → retrieve score stored top_k threshold = []) := by
  haveI htot : IsTotal RetrievalChunk (fun a b => score b ≤ score a) :=
    ⟨fun a b => le_total (score b) (score a)⟩
  haveI htrans : IsTrans RetrievalChunk (fun a b => score b ≤ score a) :=
    ⟨fun _ _ _ hab hbc => le_trans hbc hab⟩
  refine ⟨?_, ?_, ?_, ?_⟩
  · exact List.length_take_le top_k _
  · exact (List.sorted_insertionSort (fun a b => score b ≤ score a) _).sublist
      (List.take_sublist top_k _)
  · intro c hc
    have hc2 : c ∈ (stored.filter (fun c => decide (threshold ≤ score c))).insertionSort
        (fun a b => score b ≤ score a) := List.mem_of_mem_take hc
    have hc3 : c ∈ stored.filter (fun c => decide (threshold ≤ score c)) :=
      (List.perm_insertionSort (fun a b => score b ≤ score a) _).subset hc2
    have := (List.mem_filter.mp hc3).2
    simpa using this
  · intro hall
    have hfil : stored.filter (fun c => decide (threshold ≤ score c)) = [] := by
      rw [List.filter_eq_nil_iff]
      intro c hc
      simpa using not_le.mpr (hall c hc)
    simp [retrieve, hfil]

/-- Witness for C3 on a one-chunk store whose score misses the threshold:
the result is empty. -/
theorem retrieve_spec_witness :
    retrieve (fun _ => (0 : ℚ)) [{ text := "t", docId := "d" }] 3 1 = [] :=
  (retrieve_spec (fun _ => (0 : ℚ)) [{ text := "t", docId := "d" }] 3 1).2.2.2
    (fun _ _ => zero_lt_one)

/-- C5 (spec-modelled): adapter selection is an exact id match — when no
catalog model carries the requested id the result is `ModelNotFound`; a
successful selection returns a catalog model with exactly the requested id
and a healthy adapter (never a substitute); when every model carrying the
id is marked unavailable the result is `ModelUnavailable`; and requesting
`"gpt-ghost"` against a catalog without it yields `ModelNotFound`. -/
theorem select_adapter_spec (catalog : List RegistryModel) (modelId : String) :
    ((∀ m ∈ catalog, m.id ≠ modelId) →
      selectAdapter catalog modelId = .error .modelNotFound) ∧
    (∀ m, selectAdapter catalog modelId = .ok m →
      m ∈ catalog ∧ m.id = modelId ∧ m.available = true) ∧
    ((∃ m ∈ catalog, m.id = modelId) →
      (∀ m ∈ catalog, m.id = modelId → m.available = false) →
      selectAdapter catalog modelId = .error .modelUnavailable) ∧
    selectAdapter [{ id := "llama3", provider := "ollama", available := true }]
      "gpt-ghost" = .error .modelNotFound := by
  refine ⟨?_, ?_, ?_, by rfl⟩
  · intro hnone
    have hfind : catalog.find? (fun m => m.id = modelId) = none := by
      rw [List.find?_eq_none]
      intro m hm
      simpa using hnone m hm
    simp [selectAdapter, hfind]
  · intro m hm
    rcases hfind : catalog.find? (fun m => m.id = modelId) with _ | m'
    · simp [selectAdapter, hfind] at hm
    · have hmem : m' ∈ catalog := List.mem_of_find?_eq_some hfind
      have hid : m'.id = modelId := by simpa using List.find?_some hfind
      by_cases hav : m'.available
      · have : m' = m := by
          simp [selectAdapter, hfind, hav] at hm
          exact hm
        subst this
        exact ⟨hmem, hid, hav⟩
      · simp [selectAdapter, hfind, hav] at hm
  · intro hex hall
    have hsome : (catalog.find? (fun m => m.id = modelId)).isSome := by
      rw [List.find?_isSome]
      obtain ⟨m, hm, hid⟩ := hex
      exact ⟨m, hm, by simpa using hid⟩
    obtain ⟨m, hfind⟩ := Option.isSome_iff_exists.mp hsome
    have hmem : m ∈ catalog := List.mem_of_find?_eq_some hfind
    have hid : m.id = modelId := by simpa using List.find?_some hfind
    have hav : m.available = false := hall m hmem hid
    simp [selectAdapter, hfind, hav]

/-- Witness for C5: a catalog holding only an unhealthy `"gpt-4"` yields
`ModelUnavailable` for `"gpt-4"`. -/
theorem select_adapter_spec_witness :
    selectAdapter [{ id := "gpt-4", provider := "openai", available := false }]
      "gpt-4" = .error .modelUnavailable :=
  (select_adapter_spec
      [{ id := "gpt-4", provider := "openai", available := false }] "gpt-4").2.2.1
    ⟨{ id := "gpt-4", provider := "openai", available := false }, by decide, rfl⟩
    (by decide)

/-- C7 (spec-modelled): starting a second generation for a conversation
whose session is `Pending` or `Streaming` is rejected with
`SessionConflict`, and the rejection leaves the session table — in
particular the in-flight session's state and accumulated output —
completely unchanged. -/
theorem session_conflict_spec (table : List (String × SessionRecord))
    (conversationId : String) (fresh s : SessionRecord)
    (hs : table.lookup conversationId = some s)
    (hactive : s.state = SessionState.pending ∨ s.state = SessionState.streaming) :
    (startGeneration table conversationId fresh).1 = .error .sessionConflict ∧
    (startGeneration table conversationId fresh).2 = table ∧
    (startGeneration table conversationId fresh).2.lookup conversationId = some s := by
  have hact : s.isActive = true := by
    rcases hactive with h | h <;> simp [SessionRecord.isActive, h]
  refine ⟨?_, ?_, ?_⟩ <;> simp [startGeneration, hs, hact]

/-- Witness for C7: a second generation against a streaming session is
rejected and the table keeps the in-flight session. -/
theorem session_conflict_spec_witness :
    (startGeneration [("c1", { state := SessionState.streaming, accumulated := "par" })]
      "c1" { state := SessionState.pending, accumulated := "" }).1
        = .error .sessionConflict ∧
    (startGeneration [("c1", { state := SessionState.streaming, accumulated := "par" })]
      "c1" { state := SessionState.pending, accumulated := "" }).2
        = [("c1", { state := SessionState.streaming, accumulated := "par" })] := by
  have h := session_conflict_spec
    [("c1", { state := SessionState.streaming, accumulated := "par" })]
    "c1" { state := SessionState.pending, accumulated := "" }
    { state := SessionState.streaming, accumulated := "par" } (by decide) (Or.inr rfl)
  exact ⟨h.1, h.2.1⟩

section SortLemmas

/-- Helper: a strictly positive `localeCompareChars` flips to nonpositive
when the arguments swap. -/
theorem localeCompareChars_flip :
    ∀ as bs : List Char, ¬ localeCompareChars as bs ≤ 0 →
      localeCompareChars bs as ≤ 0 := by
  intro as
  induction as with
  | nil => intro bs h; cases bs <;> simp [localeCompareChars] at h
  | cons a as ih =>
      intro bs h
      cases bs with
      | nil => simp [localeCompareChars]
      | cons b bs =>
          by_cases h1 : a.toNat < b.toNat
          · simp [localeCompareChars, h1] at h
          · by_cases h2 : b.toNat < a.toNat
            · simp [localeCompareChars, h2]
            · simp only [localeCompareChars, if_neg h1, if_neg h2] at h
              simp only [localeCompareChars, if_neg h2, if_neg h1]
              exact ih bs h

/-- Helper: nonpositive `localeCompareChars` is transitive. -/
theorem localeCompareChars_trans :
    ∀ as bs cs : List Char, localeCompareChars as bs ≤ 0 →
      localeCompareChars bs cs ≤ 0 → localeCompareChars as cs ≤ 0 := by
  intro as
  induction as with
  | nil => intro bs cs _ _; cases cs <;> simp [localeCompareChars]
  | cons a as ih =>
      intro bs cs h1 h2
      cases bs with
      | nil => simp [localeCompareChars] at h1
      | cons b bs =>
          cases cs with
          | nil => simp [localeCompareChars] at h2
          | cons c cs =>
              by_cases hab : a.toNat < b.toNat
              · by_cases hbc : b.toNat < c.toNat
                · have hac : a.toNat < c.toNat := by omega
                  simp [localeCompareChars, hac]
                · by_cases hcb : c.toNat < b.toNat
                  · simp [localeCompareChars, hbc, hcb] at h2
                  · have hac : a.toNat < c.toNat := by omega
                    simp [localeCompareChars, hac]
              · by_cases hba : b.toNat < a.toNat
                · simp [localeCompareChars, hab, hba] at h1
                · simp only [localeCompareChars, if_neg hab, if_neg hba] at h1
                  by_cases hbc : b.toNat < c.toNat
                  · have hac : a.toNat < c.toNat := by omega
                    simp [localeCompareChars, hac]
                  · by_cases hcb : c.toNat < b.toNat
                    · simp [localeCompareChars, hbc, hcb] at h2
                    · have hac1 : ¬ a.toNat < c.toNat := by omega
                      have hac2 : ¬ c.toNat < a.toNat := by omega
                      simp only [localeCompareChars, if_neg hbc, if_neg hcb] at h2
                      simp only [localeCompareChars, if_neg hac1, if_neg hac2]
                      exact ih bs cs h1 h2

/-- Helper: what a nonpositive comparator value says about ranks and
ties. -/
theorem compareModels_le_facts {a b : UIModel} (h : compareModels a b ≤ 0) :
    modelRank a ≤ modelRank b ∧
    (modelRank a = modelRank b →
      a.provider = b.provider ∧ localeCompare a.display_name b.display_name ≤ 0) := by
  by_cases hav : a.available ≠ b.available
  · rcases ha : a.available with _ | _
    · exfalso
      rw [compareModels, if_pos hav, if_neg (by simp [ha])] at h
      omega
    · have hb : b.available = false := by
        cases hbv : b.available
        · rfl
        · exact absurd (by rw [ha, hbv]) hav
      have h1 : modelRank a = (if a.provider = "ollama" then 0 else 1) := by
        simp [modelRank, ha]
      have h2 : modelRank b = 2 + (if b.provider = "ollama" then 0 else 1) := by
        simp [modelRank, hb]
      constructor
      · rw [h1, h2]
        split_ifs <;> omega
      · intro heq
        exfalso
        rw [h1, h2] at heq
        split_ifs at heq <;> omega
  · have hav2 : a.available = b.available := not_not.mp hav
    by_cases hprov : a.provider ≠ b.provider
    · rcases hol : decide (a.provider = "ollama") with _ | _
      · exfalso
        rw [compareModels, if_neg hav, if_pos hprov, if_neg (by simpa using hol)] at h
        omega
      · have hol2 : a.provider = "ollama" := by simpa using hol
        have hbol : ¬ b.provider = "ollama" := by
          intro hb
          exact hprov (by rw [hol2, hb])
        have h1 : modelRank a = (if a.available then 0 else 2) := by
          simp [modelRank, hol2]
        have h2 : modelRank b = (if b.available then 0 else 2) + 1 := by
          simp [modelRank, hbol]
        constructor
        · rw [h1, h2, hav2]
          omega
        · intro heq
          exfalso
          rw [h1, h2, hav2] at heq
          omega
    · have hprov2 : a.provider = b.provider := not_not.mp hprov
      rw [compareModels, if_neg hav, if_neg hprov] at h
      refine ⟨?_, fun _ => ⟨hprov2, h⟩⟩
      simp [modelRank, hav2, hprov2]

/-- Helper: what a positive comparator value says, in the swapped
direction. -/
theorem compareModels_gt_facts {a b : UIModel} (h : ¬ compareModels a b ≤ 0) :
    modelRank b ≤ modelRank a ∧
    (modelRank b = modelRank a → b.provider = a.provider →
      localeCompare b.display_name a.display_name ≤ 0) := by
  by_cases hav : a.available ≠ b.available
  · rcases ha : a.available with _ | _
    · have hb : b.available = true := by
        cases hbv : b.available
        · exact absurd (by rw [ha, hbv]) hav
        · rfl
      have h1 : modelRank a = 2 + (if a.provider = "ollama" then 0 else 1) := by
        simp [modelRank, ha]
      have h2 : modelRank b = (if b.provider = "ollama" then 0 else 1) := by
        simp [modelRank, hb]
      constructor
      · rw [h1, h2]
        split_ifs <;> omega
      · intro heq
        exfalso
        rw [h1, h2] at heq
        split_ifs at heq <;> omega
    · exfalso
      rw [compareModels, if_pos hav, if_pos (by simp [ha])] at h
      omega
  · have hav2 : a.available = b.available := not_not.mp hav
    by_cases hprov : a.provider ≠ b.provider
    · rcases hol : decide (a.provider = "ollama") with _ | _
      · have hol2 : ¬ a.provider = "ollama" := by simpa using hol
        have h1 : modelRank a = (if a.available then 0 else 2) + 1 := by
          simp [modelRank, hol2]
        have h2 : modelRank b =
            (if b.available then 0 else 2) + (if b.provider = "ollama" then 0 else 1) := rfl
        constructor
        · rw [h1, h2, ← hav2]
          split_ifs <;> omega
        · intro _ hp
          exact absurd hp.symm hprov
      · exfalso
        rw [compareModels, if_neg hav, if_pos hprov,
          if_pos (by simpa using hol)] at h
        omega
    · have hprov2 : a.provider = b.provider := not_not.mp hprov
      rw [compareModels, if_neg hav, if_neg hprov] at h
      refine ⟨le_of_eq ?_, fun _ _ => ?_⟩
      · simp [modelRank, hav2, hprov2]
      · exact localeCompareChars_flip _ _ h

/-- Helper: the comparator accepting `x` before `y` gives the presentation
order. -/
theorem presentedBefore_of_le {x y : UIModel} (h : compareModels x y ≤ 0) :
    presentedBefore x y := by
  obtain ⟨h1, h2⟩ := compareModels_le_facts h
  exact ⟨h1, fun heq _ => (h2 heq).2⟩

/-- Helper: the comparator rejecting `x` before `y` gives the swapped
presentation order. -/
theorem presentedBefore_of_gt {x y : UIModel} (h : ¬ compareModels x y ≤ 0) :
    presentedBefore y x := by
  obtain ⟨h1, h2⟩ := compareModels_gt_facts h
  exact ⟨h1, h2⟩

/-- Helper: the presentation order propagates across an element the
comparator accepted. -/
theorem presentedBefore_step {x y z : UIModel} (hxy : compareModels x y ≤ 0)
    (hyz : presentedBefore y z) : presentedBefore x z := by
  obtain ⟨h1, h2⟩ := compareModels_le_facts hxy
  obtain ⟨h3, h4⟩ := hyz
  refine ⟨le_trans h1 h3, ?_⟩
  intro hxz hpxz
  have e1 : modelRank x = modelRank y := by omega
  obtain ⟨hpxy, hlxy⟩ := h2 e1
  have e2 : modelRank y = modelRank z := by omega
  have hpyz : y.provider = z.provider := by rw [← hpxy, hpxz]
  have hlyz := h4 e2 hpyz
  exact localeCompareChars_trans _ _ _ hlxy hlyz

/-- Helper: inserting into a list ordered by `presentedBefore` keeps it
ordered. -/
theorem orderedInsert_presented (x : UIModel) :
    ∀ l : List UIModel, l.Pairwise presentedBefore →
      (List.orderedInsert (fun a b => compareModels a b ≤ 0) x l).Pairwise
        presentedBefore := by
  intro l
  induction l with
  | nil => intro _; simp [List.orderedInsert]
  | cons y ys ih =>
      intro h
      rw [List.orderedInsert]
      have hy := List.pairwise_cons.mp h
      by_cases hr : compareModels x y ≤ 0
      · rw [if_pos hr]
        refine List.pairwise_cons.mpr ⟨?_, h⟩
        intro z hz
        rcases List.mem_cons.mp hz with rfl | hz2
        · exact presentedBefore_of_le hr
        · exact presentedBefore_step hr (hy.1 z hz2)
      · rw [if_neg hr]
        refine List.pairwise_cons.mpr ⟨?_, ih hy.2⟩
        intro z hz
        rcases (List.mem_orderedInsert _).mp hz with rfl | hz2
        · exact presentedBefore_of_gt hr
        · exact hy.1 z hz2

end SortLemmas

/-- C6 counterexample: the `loadModels` sort is not stable across input
permutations — the same two-element set of healthy models on the `openai`
and `anthropic` providers sorts to two different orders depending on the
input order, because the comparator answers `1` for both orders of two
distinct non-`ollama` providers. -/
theorem loadmodels_sort_not_permutation_stable :
    List.Perm [openaiModel, anthropicModel] [anthropicModel, openaiModel] ∧
    sortModels [openaiModel, anthropicModel] = [anthropicModel, openaiModel] ∧
    sortModels [anthropicModel, openaiModel] = [openaiModel, anthropicModel] ∧
    sortModels [openaiModel, anthropicModel] ≠
      sortModels [anthropicModel, openaiModel] := by
  refine ⟨List.Perm.swap _ _ _, ?_, ?_, ?_⟩ <;> decide

/-- C6 amended: the presented model list is a permutation of the loaded
models in which every available model precedes every unavailable one and,
within the same availability, every `ollama` model precedes models of
other providers, with display names in lexicographic order inside a tie of
rank and provider; but there is no configured priority among the remaining
providers — two distinct non-`ollama` providers are ordered by input
position, so the order is not stable across input permutations. -/
theorem loadmodels_sort_amended (l : List UIModel) :
    List.Perm (sortModels l) l ∧ (sortModels l).Pairwise presentedBefore := by
  constructor
  · exact List.perm_insertionSort _ l
  · rw [sortModels]
    induction l with
    | nil => simp
    | cons x xs ih =>
        rw [List.insertionSort]
        exact orderedInsert_presented x _ ih

end OllamaGui
